import Mathlib

/-!
Shallow embedding of the trading programs `CryptocurrencyTradingBot.py` and
`market_trend_trader.py`.  Pandas/NumPy float semantics (NaN propagation,
division by zero producing infinities or NaN, comparisons with NaN being
false) are modelled by the type `F`; candle series are lists ordered by time
ascending, `iloc[-k]` accesses are modelled by `ilocNeg`, and computations
that can raise a Python `IndexError` return `Except Unit`.
-/

namespace TradingBot

/-- IEEE-like value of a float64 cell: NaN, plus/minus infinity, or a finite
value represented exactly as a rational. -/
inductive F where
  | nan : F
  | inf : F
  | ninf : F
  | val : ℚ → F
deriving DecidableEq, Repr

/-- True when the value is finite. -/
def F.isVal : F → Bool
  | F.val _ => true
  | _ => false

/-- Negation of a float-like value. -/
def fneg : F → F
  | F.nan => F.nan
  | F.inf => F.ninf
  | F.ninf => F.inf
  | F.val a => F.val (-a)

/-- Addition with NaN propagation and IEEE infinity rules. -/
def fadd : F → F → F
  | F.nan, _ => F.nan
  | _, F.nan => F.nan
  | F.inf, F.ninf => F.nan
  | F.ninf, F.inf => F.nan
  | F.inf, _ => F.inf
  | _, F.inf => F.inf
  | F.ninf, _ => F.ninf
  | _, F.ninf => F.ninf
  | F.val a, F.val b => F.val (a + b)

/-- Subtraction, defined as addition of the negation (IEEE-consistent). -/
def fsub (a b : F) : F := fadd a (fneg b)

/-- Multiplication with NaN propagation and signed infinity rules;
zero times infinity is NaN. -/
def fmul : F → F → F
  | F.nan, _ => F.nan
  | _, F.nan => F.nan
  | F.inf, F.inf => F.inf
  | F.inf, F.ninf => F.ninf
  | F.ninf, F.inf => F.ninf
  | F.ninf, F.ninf => F.inf
  | F.inf, F.val b => if 0 < b then F.inf else if b < 0 then F.ninf else F.nan
  | F.val a, F.inf => if 0 < a then F.inf else if a < 0 then F.ninf else F.nan
  | F.ninf, F.val b => if 0 < b then F.ninf else if b < 0 then F.inf else F.nan
  | F.val a, F.ninf => if 0 < a then F.ninf else if a < 0 then F.inf else F.nan
  | F.val a, F.val b => F.val (a * b)

/-- Division following NumPy float64: a nonzero finite value divided by
(positive) zero is a signed infinity, zero divided by zero is NaN, a finite
value divided by an infinity is zero. -/
def fdiv : F → F → F
  | F.nan, _ => F.nan
  | _, F.nan => F.nan
  | F.val a, F.val b =>
      if b = 0 then (if a = 0 then F.nan else if 0 < a then F.inf else F.ninf)
      else F.val (a / b)
  | F.val _, F.inf => F.val 0
  | F.val _, F.ninf => F.val 0
  | F.inf, F.val b => if 0 ≤ b then F.inf else F.ninf
  | F.ninf, F.val b => if 0 ≤ b then F.ninf else F.inf
  | F.inf, _ => F.nan
  | F.ninf, _ => F.nan

/-- Strict less-than on float-like values: any comparison involving NaN is
false, minus infinity is below every non-NaN value, plus infinity above. -/
def fltB : F → F → Bool
  | F.nan, _ => false
  | _, F.nan => false
  | F.val a, F.val b => decide (a < b)
  | F.ninf, F.ninf => false
  | F.ninf, _ => true
  | F.inf, _ => false
  | F.val _, F.inf => true
  | F.val _, F.ninf => false

/-- Strict greater-than, as the flipped strict less-than. -/
def fgtB (a b : F) : Bool := fltB b a

/-- Sum of the finite values of a list (meaningful when all entries are
finite, which callers check with `List.all F.isVal`). -/
def valSum : List F → ℚ
  | [] => 0
  | F.val a :: rest => a + valSum rest
  | _ :: rest => valSum rest

/-- Mean of a window in pandas rolling semantics: NaN when the window is
empty or contains any non-finite entry, otherwise the arithmetic mean. -/
def meanF (l : List F) : F :=
  if l.isEmpty then F.nan
  else if l.all F.isVal then F.val (valSum l / l.length) else F.nan

/-- Minimum of a window: NaN when empty or containing a non-finite entry. -/
def minF (l : List F) : F :=
  if (l.all F.isVal) ∧ l ≠ [] then
    F.val (((l.map (fun x => match x with | F.val a => a | _ => 0)).min?).getD 0)
  else F.nan

/-- Maximum of a window: NaN when empty or containing a non-finite entry. -/
def maxF (l : List F) : F :=
  if (l.all F.isVal) ∧ l ≠ [] then
    F.val (((l.map (fun x => match x with | F.val a => a | _ => 0)).max?).getD 0)
  else F.nan

/-- Trailing window of width `w` ending at index `i`, as used by a pandas
rolling aggregation. -/
def windowAt (w : ℕ) (s : List F) (i : ℕ) : List F :=
  (s.drop (i + 1 - w)).take w

/-- Value of `series.rolling(window=w).mean()` at index `i`: NaN while fewer
than `w` observations are available. -/
def smaWindow (w : ℕ) (s : List F) (i : ℕ) : F :=
  if w = 0 ∨ i + 1 < w then F.nan else meanF (windowAt w s i)

/-- The whole series `series.rolling(window=w).mean()`. -/
def rollingMeanF (w : ℕ) (s : List F) : List F :=
  (List.range s.length).map (fun i => smaWindow w s i)

/-- Value of `series.rolling(window=w).min()` at index `i`. -/
def rminWindow (w : ℕ) (s : List F) (i : ℕ) : F :=
  if w = 0 ∨ i + 1 < w then F.nan else minF (windowAt w s i)

/-- Value of `series.rolling(window=w).max()` at index `i`. -/
def rmaxWindow (w : ℕ) (s : List F) (i : ℕ) : F :=
  if w = 0 ∨ i + 1 < w then F.nan else maxF (windowAt w s i)

/-- The whole series `series.rolling(window=w).min()`. -/
def rollingMinF (w : ℕ) (s : List F) : List F :=
  (List.range s.length).map (fun i => rminWindow w s i)

/-- The whole series `series.rolling(window=w).max()`. -/
def rollingMaxF (w : ℕ) (s : List F) : List F :=
  (List.range s.length).map (fun i => rmaxWindow w s i)

/-- Model of `series.iloc[-k]` for `k ≥ 1`: the k-th element from the end,
absent (a Python `IndexError`) when the series is shorter than `k`. -/
def ilocNeg (s : List F) (k : ℕ) : Option F :=
  if 1 ≤ k ∧ k ≤ s.length then s.get? (s.length - k) else none

/-- Model of `series.diff()`: first entry NaN, then successive differences. -/
def diffF (s : List F) : List F :=
  match s with
  | [] => []
  | _ :: _ => F.nan :: List.zipWith fsub s.tail s

/-- One OHLCV candle: open/high/low/close prices and traded volume over a
fixed interval, all finite exchange-reported numbers. -/
structure Candle where
  opn : ℚ
  high : ℚ
  low : ℚ
  close : ℚ
  volume : ℚ
deriving DecidableEq, Repr

/-- Gain series of `calculate_rsi`: `delta.where(delta > 0, 0)` followed by
the rolling mean over `period`, where `delta = close.diff()`. -/
def rsiGain (closes : List F) (period : ℕ) : List F :=
  rollingMeanF period
    ((diffF closes).map (fun d => if fgtB d (F.val 0) then d else F.val 0))

/-- Loss series of `calculate_rsi`: `(-delta.where(delta < 0, 0))` followed
by the rolling mean over `period` (NaN deltas compare false, hence become
zero, matching pandas `where`). -/
def rsiLoss (closes : List F) (period : ℕ) : List F :=
  rollingMeanF period
    ((diffF closes).map (fun d => if fltB d (F.val 0) then fneg d else F.val 0))

/-- Embedding of `calculate_rsi(data, period)`: builds
`rsi = 100 - 100/(1 + gain/loss)` elementwise and returns `rsi.iloc[-1]`;
the empty series raises `IndexError`, modelled as the error value. -/
def calculate_rsi (closes : List F) (period : ℕ) : Except Unit F :=
  let rs := List.zipWith fdiv (rsiGain closes period) (rsiLoss closes period)
  let rsi := rs.map (fun r => fsub (F.val 100) (fdiv (F.val 100) (fadd (F.val 1) r)))
  match ilocNeg rsi 1 with
  | some x => Except.ok x
  | none => Except.error ()

/-- Embedding of `is_golden_cross(data, short_period, long_period)`: compares
`short_ma.iloc[-2] < long_ma.iloc[-2] and short_ma.iloc[-1] > long_ma.iloc[-1]`
over the rolling means of the closes; series shorter than two raise
`IndexError`, modelled as the error value. -/
def is_golden_cross (closes : List F) (short_period long_period : ℕ) : Except Unit Bool :=
  let short_ma := rollingMeanF short_period closes
  let long_ma := rollingMeanF long_period closes
  match ilocNeg short_ma 2, ilocNeg long_ma 2, ilocNeg short_ma 1, ilocNeg long_ma 1 with
  | some s2, some l2, some s1, some l1 => Except.ok (fltB s2 l2 && fgtB s1 l1)
  | _, _, _, _ => Except.error ()

/-- Rolling minimum of the low column used by `calculate_stochastic`. -/
def stochLowMin (candles : List Candle) (k_period : ℕ) : List F :=
  rollingMinF k_period (candles.map (fun c => F.val c.low))

/-- Rolling maximum of the high column used by `calculate_stochastic`. -/
def stochHighMax (candles : List Candle) (k_period : ℕ) : List F :=
  rollingMaxF k_period (candles.map (fun c => F.val c.high))

/-- The %K series `100 * ((close - low_min) / (high_max - low_min))`. -/
def stochK (candles : List Candle) (k_period : ℕ) : List F :=
  List.zipWith
    (fun cl (p : F × F) =>
      fmul (F.val 100) (fdiv (fsub cl p.1) (fsub p.2 p.1)))
    (candles.map (fun c => F.val c.close))
    (List.zipWith (fun lo hi => (lo, hi)) (stochLowMin candles k_period)
      (stochHighMax candles k_period))

/-- The %D series, the rolling mean of %K over `d_period`. -/
def stochD (candles : List Candle) (k_period d_period : ℕ) : List F :=
  rollingMeanF d_period (stochK candles k_period)

/-- Embedding of `calculate_stochastic(data, k_period, d_period)`: returns
`(k_value.iloc[-1], d_value.iloc[-1])`; the empty series raises
`IndexError`, modelled as the error value. -/
def calculate_stochastic (candles : List Candle) (k_period d_period : ℕ) :
    Except Unit (F × F) :=
  match ilocNeg (stochK candles k_period) 1,
        ilocNeg (stochD candles k_period d_period) 1 with
  | some k, some d => Except.ok (k, d)
  | _, _ => Except.error ()

/-- Market trend label produced by `determine_market_trend`. -/
inductive Trend where
  | bull : Trend
  | bear : Trend
  | sideways : Trend
deriving DecidableEq, Repr

/-- Embedding of `determine_market_trend(ticker)` after its internal
`get_ohlcv` fetch: `none` models a failed fetch, an empty list an empty
frame, both classified sideways; otherwise the last values of the 12- and
26-candle rolling means of the closes are compared (comparisons against a
NaN mean are false, so insufficient history also yields sideways).  For a
nonempty series both `iloc[-1]` accesses succeed, so the final catch-all
branch is unreachable. -/
def determine_market_trend (data : Option (List Candle)) : Trend :=
  match data with
  | none => Trend.sideways
  | some candles =>
    if candles.isEmpty then Trend.sideways
    else
      let closes := candles.map (fun c => F.val c.close)
      match ilocNeg (rollingMeanF 12 closes) 1, ilocNeg (rollingMeanF 26 closes) 1 with
      | some short_ma, some long_ma =>
          if fgtB short_ma long_ma then Trend.bull
          else if fltB short_ma long_ma then Trend.bear
          else Trend.sideways
      | _, _ => Trend.sideways

/-- Specification-level simple moving average: the mean over the width-`w`
window of rational closes ending at index `i`, used to compare the pandas
pipeline against the plain arithmetic the spec describes. -/
def smaQ (w : ℕ) (closes : List ℚ) (i : ℕ) : ℚ :=
  (((closes.drop (i + 1 - w)).take w).sum) / w

/-- Tradable symbols are opaque; the embedding identifies them by number. -/
abbrev Ticker := ℕ

/-- Market data the `check_and_buy` cascade fetches for one ticker: the most
recent daily volume, and the (previous close, latest close) pair of the
5-minute, 90-second and 1-second candles.  `none` models a fetch that
returned no frame after retries (the scanner then skips the ticker). -/
structure TickerData where
  dayVolume : Option ℚ
  m5 : Option (ℚ × ℚ)
  s90 : Option (ℚ × ℚ)
  s1 : Option (ℚ × ℚ)
deriving DecidableEq, Repr

/-- Relative change `(close[-1] - close[-2]) / close[-2]`; a zero previous
close raises `ZeroDivisionError`, which the scanner catches and treats as a
failed evaluation, modelled by `none`. -/
def relChange (prev cur : ℚ) : Option ℚ :=
  if prev = 0 then none else some ((cur - prev) / prev)

/-- Insertion of a ticker into a volume-descending list. -/
def insertVolDesc (vol : Ticker → ℚ) (t : Ticker) : List Ticker → List Ticker
  | [] => [t]
  | u :: us => if vol u < vol t then t :: u :: us else u :: insertVolDesc vol t us

/-- Sort tickers by volume, highest first (models
`sorted(volumes, key=volumes.get, reverse=True)`). -/
def sortVolDesc (vol : Ticker → ℚ) : List Ticker → List Ticker
  | [] => []
  | t :: ts => insertVolDesc vol t (sortVolDesc vol ts)

/-- Stage 1 of the cascade: tickers whose daily fetch succeeded, ranked by
latest daily volume, top 35 kept. -/
def volumeTop35 (tickers : List Ticker) (data : Ticker → TickerData) : List Ticker :=
  (sortVolDesc (fun t => ((data t).dayVolume).getD 0)
    (tickers.filter (fun t => ((data t).dayVolume).isSome))).take 35

/-- Momentum filter shared by stages 2 and 3: keep tickers whose selected
interval fetch succeeded and whose relative change meets the threshold. -/
def riseFilter (theta : ℚ) (sel : TickerData → Option (ℚ × ℚ))
    (data : Ticker → TickerData) (ts : List Ticker) : List Ticker :=
  ts.filter (fun t =>
    match sel (data t) with
    | some (p, c) =>
      match relChange p c with
      | some r => decide (theta ≤ r)
      | none => false
    | none => false)

/-- Stage 4, the downside guard: keep tickers whose 1-second fetch succeeded
and whose relative change is strictly above -0.00075. -/
def downGuard (data : Ticker → TickerData) (ts : List Ticker) : List Ticker :=
  ts.filter (fun t =>
    match (data t).s1 with
    | some (p, c) =>
      match relChange p c with
      | some r => decide ((-3 / 4000 : ℚ) < r)
      | none => false
    | none => false)

/-- Survivors of the first three cascade stages (volume top-35, then the 1%
5-minute rise, then the 0.35% 90-second rise). -/
def stage123 (tickers : List Ticker) (data : Ticker → TickerData) : List Ticker :=
  riseFilter (7 / 2000) TickerData.s90 data
    (riseFilter (1 / 100) TickerData.m5 data (volumeTop35 tickers data))

/-- Final candidate list of `check_and_buy`: the downside guard applied to
the stage-1..3 survivors, then intersected with the cached valid tickers. -/
def finalCandidates (tickers valid : List Ticker) (data : Ticker → TickerData) :
    List Ticker :=
  (downGuard data (stage123 tickers data)).filter (fun t => decide (t ∈ valid))

/-- Model of `random.choice`: the element at the random draw `r` reduced
modulo the list length; `none` exactly when the list is empty. -/
def selectTicker (l : List Ticker) (r : ℕ) : Option Ticker :=
  l.get? (r % l.length)

/-- Outcome of one iteration of the `check_and_buy` loop. -/
inductive BuyAction where
  | waitSignal : BuyAction
  | noBuy : BuyAction
  | buy : Ticker → ℚ → BuyAction
deriving DecidableEq, Repr

/-- One iteration of `check_and_buy`: read the KRW balance; below 5500 wait
on the sell signal (no buy); otherwise run the cascade and market-buy a
random final candidate for a fixed 5500, or do nothing when no candidate
survives. -/
def checkAndBuyIter (balance : ℚ) (tickers valid : List Ticker)
    (data : Ticker → TickerData) (r : ℕ) : BuyAction :=
  if balance < 5500 then BuyAction.waitSignal
  else
    match selectTicker (finalCandidates tickers valid data) r with
    | some t => BuyAction.buy t 5500
    | none => BuyAction.noBuy

/-- Buy phase of one `trading_strategy` iteration over the nominated
candidates.  At step `i` the loop re-reads the owned set (`ownedAt i`) and,
when it reaches the balance check, the KRW balance (`balanceAt i`): it stops
at 13 or more owned coins, skips candidates already owned, stops when the
freshly read balance is below 5500, and otherwise submits a 5500 market buy,
recorded together with the balance read immediately before it. -/
def buyPhase (ownedAt : ℕ → Finset Ticker) (balanceAt : ℕ → ℚ) :
    List Ticker → ℕ → List (Ticker × ℚ)
  | [], _ => []
  | t :: rest, i =>
    if 13 ≤ (ownedAt i).card then []
    else if t ∈ ownedAt i then buyPhase ownedAt balanceAt rest (i + 1)
    else if balanceAt i < 5500 then []
    else (t, balanceAt i) :: buyPhase ownedAt balanceAt rest (i + 1)

/-- Buys submitted by one `trading_strategy` iteration: the iteration first
reads the balance at its top and gives up below 5500, otherwise runs the
buy phase over the candidates. -/
def tradingStrategyBuys (entryBalance : ℚ) (candidates : List Ticker)
    (ownedAt : ℕ → Finset Ticker) (balanceAt : ℚ → ℕ → ℚ) : List (Ticker × ℚ) :=
  if entryBalance < 5500 then [] else buyPhase ownedAt (balanceAt entryBalance) candidates 0

/-- Result of one underlying `pyupbit.get_ohlcv` call: an exception
(`Except.error`), a `None` frame (`Except.ok none`), or a data frame. -/
abbrev FetchOutcome := Except Unit (Option (List Candle))

/-- One observable step of `get_ohlcv_with_retry`: the numbered underlying
fetch call, or the one-second `time.sleep(1)` after a failed attempt. -/
inductive FetchAct where
  | call : ℕ → FetchAct
  | sleep1 : FetchAct
deriving DecidableEq, Repr

/-- Execution of the retry loop of `get_ohlcv_with_retry` from attempt
number `attempt` with `fuel` attempts left, against an oracle giving the
outcome of each underlying call: returns the trace of calls and sleeps
together with the final value.  A successful fetch returns immediately; an
exception is caught, and both the exception and a `None` frame fall through
to the one-second sleep and the next attempt. -/
def retryTrace (oracle : ℕ → FetchOutcome) (attempt : ℕ) :
    ℕ → List FetchAct × Option (List Candle)
  | 0 => ([], none)
  | fuel + 1 =>
    match oracle attempt with
    | Except.ok (some df) => ([FetchAct.call attempt], some df)
    | _ =>
      let rest := retryTrace oracle (attempt + 1) fuel
      (FetchAct.call attempt :: FetchAct.sleep1 :: rest.1, rest.2)

/-- The bound `MAX_RETRIES` of the source. -/
def MAX_RETRIES : ℕ := 5

/-- Embedding of `get_ohlcv_with_retry(ticker, interval)` (the ticker and
interval are absorbed into the oracle): the value returned to the caller.
By construction the result is an `Option`, never a propagated exception. -/
def get_ohlcv_with_retry (oracle : ℕ → FetchOutcome) : Option (List Candle) :=
  (retryTrace oracle 0 MAX_RETRIES).2

/-- Number of underlying fetch calls in a retry trace. -/
def countCalls (tr : List FetchAct) : ℕ :=
  (tr.filter (fun a => match a with | FetchAct.call _ => true | _ => false)).length

/-- True when no two underlying fetch calls are adjacent in the trace, i.e.
every re-attempt is separated from the previous call by a sleep. -/
def noAdjacentCalls : List FetchAct → Bool
  | FetchAct.call _ :: FetchAct.call _ :: _ => false
  | _ :: rest => noAdjacentCalls rest
  | [] => true

/-- True when the oracle outcome is a data frame (a hit ends the loop). -/
def isHit (o : FetchOutcome) : Prop := ∃ df, o = Except.ok (some df)

/-- Exchange-side state seen by the buy logic of `trading_strategy`: the
coins the `get_balances` snapshot currently reports as owned, and the
market-buy orders submitted so far.  An order that was submitted but is not
yet reflected in the snapshot is in flight. -/
structure DispatchState where
  owned : List Ticker
  submitted : List Ticker
deriving DecidableEq, Repr

/-- Embedding of the pre-submission recheck of `trading_strategy` (its buy
loop body): re-read the owned snapshot, skip the candidate when it is
already owned, otherwise submit a market buy for it. -/
def nominateBuy (st : DispatchState) (t : Ticker) : DispatchState :=
  if t ∈ st.owned then st else { st with submitted := st.submitted ++ [t] }

/-- Outcome of one sell-rule evaluation. -/
inductive SellOutcome where
  | none : SellOutcome
  | profit : SellOutcome
  | loss : SellOutcome
deriving DecidableEq, Repr

/-- Embedding of the trend-conditioned sell rules of `trading_strategy`:
bull takes profit at +2% and stops loss at -2%, bear stops loss at -3% and
takes profit at +1%, sideways takes profit at +1.5% and stops loss at
-1.5%, each checked in the source order against `avg_buy_price`. -/
def tradeSellOutcome (trend : Trend) (avg_buy_price current_price : ℚ) : SellOutcome :=
  match trend with
  | Trend.bull =>
    if avg_buy_price * (51 / 50) ≤ current_price then SellOutcome.profit
    else if current_price ≤ avg_buy_price * (49 / 50) then SellOutcome.loss
    else SellOutcome.none
  | Trend.bear =>
    if current_price ≤ avg_buy_price * (97 / 100) then SellOutcome.loss
    else if avg_buy_price * (101 / 100) ≤ current_price then SellOutcome.profit
    else SellOutcome.none
  | Trend.sideways =>
    if avg_buy_price * (203 / 200) ≤ current_price then SellOutcome.profit
    else if current_price ≤ avg_buy_price * (197 / 200) then SellOutcome.loss
    else SellOutcome.none

/-- Python `round(x, 2)`: round half to even at two decimal places. -/
def round2 (x : ℚ) : ℚ :=
  let y := x * 100
  let f : ℤ := Int.floor y
  let r := y - f
  (if r < 1 / 2 then (f : ℚ)
   else if 1 / 2 < r then (f : ℚ) + 1
   else if f % 2 = 0 then (f : ℚ) else (f : ℚ) + 1) / 100

/-- Embedding of one holding of `check_and_sell_increase`: after the dust,
zero-cost-basis, ticker-validity and price-presence guards, a limit sell at
`round(avg_buy_price * 1.015, 2)` is placed when the current price is at
least `avg_buy_price * 1.0175`; the result is the limit price placed. -/
def checkSellIncreaseOrder (balance_amount avg_buy_price : ℚ) (valid : Bool)
    (current_price : Option ℚ) : Option ℚ :=
  if balance_amount < 1 / 10000 then none
  else if avg_buy_price = 0 then none
  else if !valid then none
  else
    match current_price with
    | none => none
    | some p =>
      if avg_buy_price * (407 / 400) ≤ p then some (round2 (avg_buy_price * (203 / 200)))
      else none

/-- Observable actions of the long-running loops that matter for the
capital hand-off: balance reads, the `sell_executed.wait()` and `.clear()`
calls, sleeps, the `sell_executed.set()` call, sell submissions, and the
scan-and-trade body abstracted as one action. -/
inductive LoopAct where
  | readBalance : ℚ → LoopAct
  | waitSignal : LoopAct
  | clearSignal : LoopAct
  | sleepSec : ℕ → LoopAct
  | setSignal : LoopAct
  | submitSell : LoopAct
  | scanAndTrade : LoopAct
deriving DecidableEq, Repr

/-- Action trace of one iteration of `check_and_buy`: on a balance below
5500 the loop waits on `sell_executed`, clears it, and continues (so the
next iteration re-reads the balance before deciding); otherwise it runs the
scan-and-buy body. -/
def checkAndBuyActs (balance : ℚ) : List LoopAct :=
  if balance < 5500 then
    [LoopAct.readBalance balance, LoopAct.waitSignal, LoopAct.clearSignal]
  else [LoopAct.readBalance balance, LoopAct.scanAndTrade]

/-- Action trace of the top of one `trading_strategy` iteration: on a
balance below 5500 the loop sleeps one second and re-polls; otherwise it
runs its scan-and-trade body. -/
def tradingStrategyLowBalActs (balance : ℚ) : List LoopAct :=
  if balance < 5500 then [LoopAct.readBalance balance, LoopAct.sleepSec 1]
  else [LoopAct.readBalance balance, LoopAct.scanAndTrade]

/-- Action trace of one holding in `check_and_sell_decrease`: after the
dust, zero-cost-basis, validity and price guards, a market sell is
submitted and `sell_executed` is set when the price has fallen to at most
`avg_buy_price * 0.9725`. -/
def sellDecreaseActs (balance_amount avg_buy_price : ℚ) (valid : Bool)
    (current_price : Option ℚ) : List LoopAct :=
  if balance_amount < 1 / 10000 then []
  else if avg_buy_price = 0 then []
  else if !valid then []
  else
    match current_price with
    | none => []
    | some p =>
      if p ≤ avg_buy_price * (389 / 400) then [LoopAct.submitSell, LoopAct.setSignal]
      else []

/-- Action trace of one holding in `check_and_sell_increase`: a limit sell
is placed and `sell_executed` is set exactly when `checkSellIncreaseOrder`
places an order. -/
def sellIncreaseActs (balance_amount avg_buy_price : ℚ) (valid : Bool)
    (current_price : Option ℚ) : List LoopAct :=
  match checkSellIncreaseOrder balance_amount avg_buy_price valid current_price with
  | some _ => [LoopAct.submitSell, LoopAct.setSignal]
  | none => []

/-! Helper lemmas about the float-like arithmetic and the series machinery. -/

theorem fadd_nan_right (x : F) : fadd x F.nan = F.nan := by cases x <;> rfl

theorem fsub_nan_right (x : F) : fsub x F.nan = F.nan := by cases x <;> rfl

theorem fdiv_nan_left (x : F) : fdiv F.nan x = F.nan := by cases x <;> rfl

theorem fdiv_nan_right (x : F) : fdiv x F.nan = F.nan := by cases x <;> rfl

theorem fltB_nan_right (x : F) : fltB x F.nan = false := by cases x <;> rfl

theorem fmul_val100_nan : fmul (F.val 100) F.nan = F.nan := rfl

theorem fsub_nan_left (x : F) : fsub F.nan x = F.nan := by cases x <;> rfl

/-- NaN chain of the RSI formula: a NaN relative strength gives a NaN RSI. -/
theorem rsiFormula_nan :
    fsub (F.val 100) (fdiv (F.val 100) (fadd (F.val 1) F.nan)) = F.nan := rfl

theorem length_rollingMeanF (w : ℕ) (s : List F) :
    (rollingMeanF w s).length = s.length := by
  simp [rollingMeanF]

theorem get?_rollingMeanF (w : ℕ) (s : List F) (i : ℕ) (hi : i < s.length) :
    (rollingMeanF w s).get? i = some (smaWindow w s i) := by
  simp [rollingMeanF, List.get?_map, List.get?_range, hi]

theorem ilocNeg_eq_get? (s : List F) (k : ℕ) (h1 : 1 ≤ k) (h2 : k ≤ s.length) :
    ilocNeg s k = s.get? (s.length - k) := by
  simp [ilocNeg, h1, h2]

theorem ilocNeg_one (s : List F) (h : 1 ≤ s.length) :
    ilocNeg s 1 = s.get? (s.length - 1) := ilocNeg_eq_get? s 1 le_rfl h

theorem ilocNeg_one_some (s : List F) (x : F) (h : ilocNeg s 1 = some x) :
    1 ≤ s.length ∧ s.get? (s.length - 1) = some x := by
  by_cases hl : 1 ≤ s.length
  · exact ⟨hl, by rw [← ilocNeg_one s hl]; exact h⟩
  · exfalso
    rw [ilocNeg] at h
    simp [hl] at h

theorem ilocNeg_rollingMeanF (w : ℕ) (s : List F) (k : ℕ) (h1 : 1 ≤ k)
    (h2 : k ≤ s.length) :
    ilocNeg (rollingMeanF w s) k = some (smaWindow w s (s.length - k)) := by
  rw [ilocNeg_eq_get? _ k h1 (by rw [length_rollingMeanF]; exact h2),
    length_rollingMeanF]
  exact get?_rollingMeanF w s (s.length - k) (by omega)

theorem smaWindow_nan_of_short (w : ℕ) (s : List F) (i : ℕ) (h : i + 1 < w) :
    smaWindow w s i = F.nan := by
  simp [smaWindow, h]

theorem valSum_map_val (l : List ℚ) : valSum (l.map F.val) = l.sum := by
  induction l with
  | nil => rfl
  | cons a rest ih => simp [valSum, ih]

theorem all_isVal_map_val (l : List ℚ) : (l.map F.val).all F.isVal = true := by
  simp [List.all_eq_true, F.isVal]

theorem meanF_map_val (l : List ℚ) (h : l ≠ []) :
    meanF (l.map F.val) = F.val (l.sum / l.length) := by
  have hne : (l.map F.val).isEmpty = false := by
    simp [List.isEmpty_iff, h]
  simp [meanF, hne, all_isVal_map_val, valSum_map_val]

theorem windowAt_map_val (w : ℕ) (l : List ℚ) (i : ℕ) :
    windowAt w (l.map F.val) i = ((l.drop (i + 1 - w)).take w).map F.val := by
  simp [windowAt, List.map_take, List.map_drop]

theorem length_window (w : ℕ) (l : List ℚ) (i : ℕ) (hw : w ≤ i + 1)
    (hi : i < l.length) : ((l.drop (i + 1 - w)).take w).length = w := by
  simp only [List.length_take, List.length_drop]
  omega

theorem smaWindow_map_val (w : ℕ) (closes : List ℚ) (i : ℕ) (hw : 1 ≤ w)
    (hiw : w ≤ i + 1) (hi : i < closes.length) :
    smaWindow w (closes.map F.val) i = F.val (smaQ w closes i) := by
  have hwin : ((closes.drop (i + 1 - w)).take w).length = w :=
    length_window w closes i hiw hi
  have hne : (closes.drop (i + 1 - w)).take w ≠ [] := by
    intro hcon
    rw [hcon] at hwin
    simp at hwin
    omega
  rw [smaWindow, if_neg (by omega), windowAt_map_val,
    meanF_map_val _ hne, hwin, smaQ]

theorem get?_zipWith {α β γ : Type} (f : α → β → γ) :
    ∀ (as : List α) (bs : List β) (i : ℕ) (a : α) (b : β),
      as.get? i = some a → bs.get? i = some b →
      (List.zipWith f as bs).get? i = some (f a b) := by
  intro as
  induction as with
  | nil => intro bs i a b ha; simp at ha
  | cons x xs ih =>
    intro bs i a b ha hb
    cases bs with
    | nil => simp at hb
    | cons y ys =>
      cases i with
      | zero =>
        simp only [List.get?_cons_zero, Option.some.injEq] at ha hb
        subst ha
        subst hb
        rfl
      | succ j =>
        rw [List.get?_cons_succ] at ha hb
        rw [List.zipWith_cons_cons, List.get?_cons_succ]
        exact ih ys j a b ha hb

theorem mem_windowAt_last (w : ℕ) (s : List F) (i : ℕ) (x : F) (hw : 1 ≤ w)
    (hiw : w ≤ i + 1) (hx : s.get? i = some x) : x ∈ windowAt w s i := by
  have h1 : (windowAt w s i).get? (w - 1) = s.get? i := by
    rw [windowAt, List.get?_take (by omega), List.get?_drop]
    congr 1
    omega
  exact List.get?_mem (by rw [h1]; exact hx)

theorem fltB_nan_left (x : F) : fltB F.nan x = false := by cases x <;> rfl

theorem meanF_nan_of_mem (l : List F) (h : F.nan ∈ l) : meanF l = F.nan := by
  have hne : l.isEmpty = false := by
    cases l with
    | nil => simp at h
    | cons a rest => rfl
  have hnv : l.all F.isVal = false := by
    rw [List.all_eq_false]
    exact ⟨F.nan, h, by simp [F.isVal]⟩
  simp [meanF, hne, hnv]

theorem length_diffF (s : List F) : (diffF s).length = s.length := by
  cases s with
  | nil => rfl
  | cons a rest =>
    simp only [diffF, List.length_cons, List.length_zipWith, List.tail_cons]
    omega

theorem length_rsiGain (closes : List F) (period : ℕ) :
    (rsiGain closes period).length = closes.length := by
  rw [rsiGain, length_rollingMeanF, List.length_map, length_diffF]

theorem length_rsiLoss (closes : List F) (period : ℕ) :
    (rsiLoss closes period).length = closes.length := by
  rw [rsiLoss, length_rollingMeanF, List.length_map, length_diffF]

theorem length_rollingMinF (w : ℕ) (s : List F) :
    (rollingMinF w s).length = s.length := by
  simp [rollingMinF]

theorem length_rollingMaxF (w : ℕ) (s : List F) :
    (rollingMaxF w s).length = s.length := by
  simp [rollingMaxF]

theorem get?_rollingMinF (w : ℕ) (s : List F) (i : ℕ) (hi : i < s.length) :
    (rollingMinF w s).get? i = some (rminWindow w s i) := by
  simp [rollingMinF, List.get?_map, List.get?_range, hi]

theorem get?_rollingMaxF (w : ℕ) (s : List F) (i : ℕ) (hi : i < s.length) :
    (rollingMaxF w s).get? i = some (rmaxWindow w s i) := by
  simp [rollingMaxF, List.get?_map, List.get?_range, hi]

theorem rminWindow_nan_of_short (w : ℕ) (s : List F) (i : ℕ) (h : i + 1 < w) :
    rminWindow w s i = F.nan := by
  simp [rminWindow, h]

theorem rmaxWindow_nan_of_short (w : ℕ) (s : List F) (i : ℕ) (h : i + 1 < w) :
    rmaxWindow w s i = F.nan := by
  simp [rmaxWindow, h]

theorem length_stochK (candles : List Candle) (kp : ℕ) :
    (stochK candles kp).length = candles.length := by
  simp only [stochK, stochLowMin, stochHighMax, List.length_zipWith,
    List.length_map, length_rollingMinF, length_rollingMaxF]
  omega

/-- Last value of the RSI pipeline, expressed from the last values of the
gain and loss rolling means. -/
theorem calculate_rsi_last (closes : List F) (period : ℕ) (g l : F)
    (hg : ilocNeg (rsiGain closes period) 1 = some g)
    (hl : ilocNeg (rsiLoss closes period) 1 = some l) :
    calculate_rsi closes period
      = Except.ok
          (fsub (F.val 100) (fdiv (F.val 100) (fadd (F.val 1) (fdiv g l)))) := by
  obtain ⟨hg1, hg2⟩ := ilocNeg_one_some _ _ hg
  obtain ⟨hl1, hl2⟩ := ilocNeg_one_some _ _ hl
  have hgl : (rsiGain closes period).length = closes.length := length_rsiGain _ _
  have hll : (rsiLoss closes period).length = closes.length := length_rsiLoss _ _
  have hrs : (List.zipWith fdiv (rsiGain closes period)
      (rsiLoss closes period)).get? (closes.length - 1) = some (fdiv g l) := by
    refine get?_zipWith fdiv _ _ _ _ _ ?_ ?_
    · rw [← hgl]; exact hg2
    · rw [← hll]; exact hl2
  have hrslen : (List.zipWith fdiv (rsiGain closes period)
      (rsiLoss closes period)).length = closes.length := by
    rw [List.length_zipWith, hgl, hll, Nat.min_self]
  rw [calculate_rsi]
  have hlast : ilocNeg ((List.zipWith fdiv (rsiGain closes period)
      (rsiLoss closes period)).map (fun r =>
        fsub (F.val 100) (fdiv (F.val 100) (fadd (F.val 1) r)))) 1
      = some (fsub (F.val 100) (fdiv (F.val 100) (fadd (F.val 1) (fdiv g l)))) := by
    rw [ilocNeg_eq_get? _ 1 le_rfl
      (by rw [List.length_map, hrslen]; omega)]
    rw [List.length_map, hrslen, List.get?_map, hrs]
    rfl
  rw [hlast]

theorem fadd_val (a b : ℚ) : fadd (F.val a) (F.val b) = F.val (a + b) := rfl

theorem fsub_val (a b : ℚ) : fsub (F.val a) (F.val b) = F.val (a - b) := by
  rw [fsub, fneg, fadd_val, sub_eq_add_neg]

theorem fdiv_val_pos_zero (g : ℚ) (h : 0 < g) :
    fdiv (F.val g) (F.val 0) = F.inf := by
  have hne : g ≠ 0 := ne_of_gt h
  simp [fdiv, hne, h]

theorem fdiv_val_zero_zero : fdiv (F.val 0) (F.val 0) = F.nan := rfl

theorem fadd_val_one_inf : fadd (F.val 1) F.inf = F.inf := rfl

theorem fdiv_val100_inf : fdiv (F.val 100) F.inf = F.val 0 := rfl

theorem zipWith_fsub_replicate (c : ℚ) :
    ∀ n : ℕ,
      List.zipWith fsub (List.replicate n (F.val c))
        (F.val c :: List.replicate n (F.val c)) = List.replicate n (F.val 0) := by
  intro n
  induction n with
  | zero => rfl
  | succ m ih =>
    rw [List.replicate_succ, List.zipWith_cons_cons, ih, List.replicate_succ,
      fsub_val]
    norm_num

theorem diffF_replicate_val (n : ℕ) (c : ℚ) :
    diffF (List.replicate (n + 1) (F.val c)) = F.nan :: List.replicate n (F.val 0) := by
  rw [List.replicate_succ]
  simp only [diffF, List.tail_cons]
  rw [zipWith_fsub_replicate]

theorem gains_replicate (n : ℕ) (c : ℚ) :
    (diffF (List.replicate (n + 1) (F.val c))).map
      (fun d => if fgtB d (F.val 0) then d else F.val 0)
      = List.replicate (n + 1) (F.val 0) := by
  rw [diffF_replicate_val, List.map_cons, List.map_replicate]
  have e1 : (if fgtB F.nan (F.val 0) then F.nan else F.val 0) = F.val 0 := rfl
  have e2 : (if fgtB (F.val 0) (F.val 0) then F.val 0 else F.val 0) = F.val 0 := rfl
  simp only [e1, e2]
  rw [← List.replicate_succ]

theorem losses_replicate (n : ℕ) (c : ℚ) :
    (diffF (List.replicate (n + 1) (F.val c))).map
      (fun d => if fltB d (F.val 0) then fneg d else F.val 0)
      = List.replicate (n + 1) (F.val 0) := by
  rw [diffF_replicate_val, List.map_cons, List.map_replicate]
  have e1 : (if fltB F.nan (F.val 0) then fneg F.nan else F.val 0) = F.val 0 := rfl
  have e2 : (if fltB (F.val 0) (F.val 0) then fneg (F.val 0) else F.val 0)
      = F.val 0 := rfl
  simp only [e1, e2]
  rw [← List.replicate_succ]

theorem valSum_replicate_zero : ∀ n : ℕ, valSum (List.replicate n (F.val 0)) = 0 := by
  intro n
  induction n with
  | zero => rfl
  | succ m ih =>
    rw [List.replicate_succ]
    show (0 : ℚ) + valSum (List.replicate m (F.val 0)) = 0
    rw [ih, add_zero]

theorem all_isVal_replicate (n : ℕ) (c : ℚ) :
    (List.replicate n (F.val c)).all F.isVal = true := by
  simp [List.all_eq_true, List.mem_replicate, F.isVal]

theorem replicate_val_ne_nil (n : ℕ) (c : ℚ) (h : 1 ≤ n) :
    List.replicate n (F.val c) ≠ [] := by
  intro hcon
  have := congrArg List.length hcon
  simp at this
  omega

theorem meanF_replicate_zero (w : ℕ) (hw : 1 ≤ w) :
    meanF (List.replicate w (F.val 0)) = F.val 0 := by
  rw [meanF]
  rw [if_neg (by simp [List.isEmpty_iff]; omega),
    if_pos (all_isVal_replicate w 0), valSum_replicate_zero,
    List.length_replicate, zero_div]

theorem smaWindow_replicate_zero (w n i : ℕ) (hw : 1 ≤ w) (hiw : w ≤ i + 1)
    (hi : i < n) : smaWindow w (List.replicate n (F.val 0)) i = F.val 0 := by
  rw [smaWindow, if_neg (by omega), windowAt, List.drop_replicate,
    List.take_replicate]
  have hmin : min w (n - (i + 1 - w)) = w := by omega
  rw [hmin, meanF_replicate_zero w hw]

theorem rsiGain_flat_last (n p : ℕ) (c : ℚ) (hp : 1 ≤ p) (hpn : p ≤ n + 1) :
    ilocNeg (rsiGain (List.replicate (n + 1) (F.val c)) p) 1 = some (F.val 0) := by
  rw [ilocNeg_eq_get? _ 1 le_rfl
    (by rw [length_rsiGain, List.length_replicate]; omega),
    length_rsiGain, List.length_replicate, rsiGain, gains_replicate,
    get?_rollingMeanF _ _ _ (by rw [List.length_replicate]; omega)]
  rw [Nat.add_sub_cancel, smaWindow_replicate_zero p (n + 1) n hp (by omega) (by omega)]

theorem rsiLoss_flat_last (n p : ℕ) (c : ℚ) (hp : 1 ≤ p) (hpn : p ≤ n + 1) :
    ilocNeg (rsiLoss (List.replicate (n + 1) (F.val c)) p) 1 = some (F.val 0) := by
  rw [ilocNeg_eq_get? _ 1 le_rfl
    (by rw [length_rsiLoss, List.length_replicate]; omega),
    length_rsiLoss, List.length_replicate, rsiLoss, losses_replicate,
    get?_rollingMeanF _ _ _ (by rw [List.length_replicate]; omega)]
  rw [Nat.add_sub_cancel, smaWindow_replicate_zero p (n + 1) n hp (by omega) (by omega)]

theorem min?_replicate (n : ℕ) (a : ℚ) (h : 1 ≤ n) :
    (List.replicate n a).min? = some a := by
  induction n with
  | zero => omega
  | succ m ih =>
    rw [List.replicate_succ, List.min?_cons]
    cases Nat.eq_zero_or_pos m with
    | inl h0 => subst h0; rfl
    | inr hm =>
      rw [ih hm]
      simp

theorem max?_replicate (n : ℕ) (a : ℚ) (h : 1 ≤ n) :
    (List.replicate n a).max? = some a := by
  induction n with
  | zero => omega
  | succ m ih =>
    rw [List.replicate_succ, List.max?_cons]
    cases Nat.eq_zero_or_pos m with
    | inl h0 => subst h0; rfl
    | inr hm =>
      rw [ih hm]
      simp

theorem minF_replicate_val (n : ℕ) (c : ℚ) (h : 1 ≤ n) :
    minF (List.replicate n (F.val c)) = F.val c := by
  rw [minF,
    if_pos ⟨all_isVal_replicate n c, replicate_val_ne_nil n c h⟩,
    List.map_replicate]
  simp only []
  rw [min?_replicate n c h]
  rfl

theorem maxF_replicate_val (n : ℕ) (c : ℚ) (h : 1 ≤ n) :
    maxF (List.replicate n (F.val c)) = F.val c := by
  rw [maxF,
    if_pos ⟨all_isVal_replicate n c, replicate_val_ne_nil n c h⟩,
    List.map_replicate]
  simp only []
  rw [max?_replicate n c h]
  rfl

theorem length_stochLowMin (candles : List Candle) (kp : ℕ) :
    (stochLowMin candles kp).length = candles.length := by
  rw [stochLowMin, length_rollingMinF, List.length_map]

theorem length_stochHighMax (candles : List Candle) (kp : ℕ) :
    (stochHighMax candles kp).length = candles.length := by
  rw [stochHighMax, length_rollingMaxF, List.length_map]

theorem meanF_singleton (a : ℚ) : meanF [F.val a] = F.val a := by
  have h1 : valSum [F.val a] = a := by
    simp only [valSum]
    norm_num
  simp [meanF, F.isVal, h1]

theorem stochLowMin_flat14 :
    ilocNeg (stochLowMin (List.replicate 14 (Candle.mk 100 100 100 100 0)) 14) 1
      = some (F.val 100) := by
  have hlowmap : (List.replicate 14 (Candle.mk 100 100 100 100 0)).map
      (fun c => F.val c.low) = List.replicate 14 (F.val 100) := by
    rw [List.map_replicate]
  rw [stochLowMin, hlowmap,
    ilocNeg_eq_get? _ 1 le_rfl
      (by rw [length_rollingMinF, List.length_replicate]; omega),
    length_rollingMinF, List.length_replicate,
    get?_rollingMinF _ _ _ (by rw [List.length_replicate]; omega),
    rminWindow, if_neg (by omega), windowAt, List.drop_replicate,
    List.take_replicate]
  norm_num
  rw [minF_replicate_val 14 100 (by norm_num)]

theorem stochHighMax_flat14 :
    ilocNeg (stochHighMax (List.replicate 14 (Candle.mk 100 100 100 100 0)) 14) 1
      = some (F.val 100) := by
  have hhighmap : (List.replicate 14 (Candle.mk 100 100 100 100 0)).map
      (fun c => F.val c.high) = List.replicate 14 (F.val 100) := by
    rw [List.map_replicate]
  rw [stochHighMax, hhighmap,
    ilocNeg_eq_get? _ 1 le_rfl
      (by rw [length_rollingMaxF, List.length_replicate]; omega),
    length_rollingMaxF, List.length_replicate,
    get?_rollingMaxF _ _ _ (by rw [List.length_replicate]; omega),
    rmaxWindow, if_neg (by omega), windowAt, List.drop_replicate,
    List.take_replicate]
  norm_num
  rw [maxF_replicate_val 14 100 (by norm_num)]

theorem get?_flat14_last :
    (List.replicate 14 (Candle.mk 100 100 100 100 0)).get?
      ((List.replicate 14 (Candle.mk 100 100 100 100 0)).length - 1)
      = some (Candle.mk 100 100 100 100 0) := by
  rw [List.length_replicate]
  simp [List.getElem?_replicate]

/-- Last value of the %K pipeline, expressed from the last candle close and
the last values of the rolling extrema. -/
theorem stochK_last_eval (candles : List Candle) (kp : ℕ) (lo hi : F)
    (cand : Candle) (h1 : 1 ≤ candles.length)
    (hcand : candles.get? (candles.length - 1) = some cand)
    (hlow : ilocNeg (stochLowMin candles kp) 1 = some lo)
    (hhigh : ilocNeg (stochHighMax candles kp) 1 = some hi) :
    ilocNeg (stochK candles kp) 1
      = some (fmul (F.val 100)
          (fdiv (fsub (F.val cand.close) lo) (fsub hi lo))) := by
  obtain ⟨_, hlow2⟩ := ilocNeg_one_some _ _ hlow
  obtain ⟨_, hhigh2⟩ := ilocNeg_one_some _ _ hhigh
  rw [length_stochLowMin] at hlow2
  rw [length_stochHighMax] at hhigh2
  have hinner := get?_zipWith (fun lo hi => (lo, hi)) _ _
    (candles.length - 1) _ _ hlow2 hhigh2
  have hcl : (candles.map (fun c => F.val c.close)).get? (candles.length - 1)
      = some (F.val cand.close) := by
    rw [List.get?_map, hcand]
    rfl
  have hk := get?_zipWith
    (fun cl (p : F × F) => fmul (F.val 100) (fdiv (fsub cl p.1) (fsub p.2 p.1)))
    _ _ (candles.length - 1) _ _ hcl hinner
  rw [ilocNeg_eq_get? _ 1 le_rfl (by rw [length_stochK]; omega), length_stochK]
  exact hk

/-- Closed form of `is_golden_cross` on a long-enough rational close series:
both comparisons become strict rational SMA comparisons. -/
theorem is_golden_cross_eval (closes : List ℚ) (s l : ℕ) (hs : 1 ≤ s)
    (hsl : s ≤ l) (hlen : l + 1 ≤ closes.length) :
    is_golden_cross (closes.map F.val) s l
      = Except.ok
          (decide (smaQ s closes (closes.length - 2)
              < smaQ l closes (closes.length - 2))
            && decide (smaQ l closes (closes.length - 1)
              < smaQ s closes (closes.length - 1))) := by
  have hlm : (closes.map F.val).length = closes.length := List.length_map _ _
  have hs2 : ilocNeg (rollingMeanF s (closes.map F.val)) 2
      = some (F.val (smaQ s closes (closes.length - 2))) := by
    rw [ilocNeg_rollingMeanF s _ 2 (by omega) (by omega), hlm,
      smaWindow_map_val s closes (closes.length - 2) hs (by omega) (by omega)]
  have hl2 : ilocNeg (rollingMeanF l (closes.map F.val)) 2
      = some (F.val (smaQ l closes (closes.length - 2))) := by
    rw [ilocNeg_rollingMeanF l _ 2 (by omega) (by omega), hlm,
      smaWindow_map_val l closes (closes.length - 2) (by omega) (by omega) (by omega)]
  have hs1 : ilocNeg (rollingMeanF s (closes.map F.val)) 1
      = some (F.val (smaQ s closes (closes.length - 1))) := by
    rw [ilocNeg_rollingMeanF s _ 1 (by omega) (by omega), hlm,
      smaWindow_map_val s closes (closes.length - 1) hs (by omega) (by omega)]
  have hl1 : ilocNeg (rollingMeanF l (closes.map F.val)) 1
      = some (F.val (smaQ l closes (closes.length - 1))) := by
    rw [ilocNeg_rollingMeanF l _ 1 (by omega) (by omega), hlm,
      smaWindow_map_val l closes (closes.length - 1) (by omega) (by omega) (by omega)]
  rw [is_golden_cross]
  rw [hs2, hl2, hs1, hl1]
  rfl

/-! Lemmas about the retry loop. -/

theorem countCalls_nil : countCalls [] = 0 := rfl

theorem countCalls_call_cons (i : ℕ) (tr : List FetchAct) :
    countCalls (FetchAct.call i :: tr) = countCalls tr + 1 := by
  simp [countCalls, List.filter_cons]

theorem countCalls_sleep_cons (tr : List FetchAct) :
    countCalls (FetchAct.sleep1 :: tr) = countCalls tr := by
  simp [countCalls, List.filter_cons]

theorem retryTrace_calls_le (oracle : ℕ → FetchOutcome) :
    ∀ (fuel a : ℕ), countCalls (retryTrace oracle a fuel).1 ≤ fuel := by
  intro fuel
  induction fuel with
  | zero => intro a; simp [retryTrace, countCalls_nil]
  | succ n ih =>
    intro a
    rw [retryTrace]
    rcases ho : oracle a with e | odf
    · simp only [ho]
      rw [countCalls_call_cons, countCalls_sleep_cons]
      exact Nat.succ_le_succ (ih (a + 1))
    · cases odf with
      | none =>
        simp only [ho]
        rw [countCalls_call_cons, countCalls_sleep_cons]
        exact Nat.succ_le_succ (ih (a + 1))
      | some df =>
        simp only [ho]
        rw [countCalls_call_cons, countCalls_nil]
        omega

theorem noAdjacentCalls_call_sleep (a : ℕ) (tr : List FetchAct) :
    noAdjacentCalls (FetchAct.call a :: FetchAct.sleep1 :: tr) = noAdjacentCalls tr :=
  rfl

theorem retryTrace_no_adjacent (oracle : ℕ → FetchOutcome) :
    ∀ (fuel a : ℕ), noAdjacentCalls (retryTrace oracle a fuel).1 = true := by
  intro fuel
  induction fuel with
  | zero => intro a; rfl
  | succ n ih =>
    intro a
    rw [retryTrace]
    rcases ho : oracle a with e | odf
    · simp only [ho]
      rw [noAdjacentCalls_call_sleep]
      exact ih (a + 1)
    · cases odf with
      | none =>
        simp only [ho]
        rw [noAdjacentCalls_call_sleep]
        exact ih (a + 1)
      | some df => simp only [ho]; rfl

theorem retryTrace_first_hit (oracle : ℕ → FetchOutcome) :
    ∀ (fuel a i : ℕ) (df : List Candle), i < fuel →
      oracle (a + i) = Except.ok (some df) →
      (∀ j, j < i → ¬ isHit (oracle (a + j))) →
      (retryTrace oracle a fuel).2 = some df := by
  intro fuel
  induction fuel with
  | zero => intro a i df hi; omega
  | succ n ih =>
    intro a i df hi hhit hmiss
    rw [retryTrace]
    cases i with
    | zero =>
      simp only [Nat.add_zero] at hhit
      simp only [hhit]
    | succ i2 =>
      have hnot : ¬ isHit (oracle a) := by
        have := hmiss 0 (Nat.succ_pos i2)
        simpa using this
      rcases ho : oracle a with e | odf
      · simp only [ho]
        have harg : a + 1 + i2 = a + (i2 + 1) := by omega
        refine ih (a + 1) i2 df (by omega) (by rw [harg]; exact hhit) ?_
        intro j hj
        have := hmiss (j + 1) (by omega)
        have harg2 : a + 1 + j = a + (j + 1) := by omega
        rw [harg2]
        exact this
      · cases odf with
        | none =>
          simp only [ho]
          have harg : a + 1 + i2 = a + (i2 + 1) := by omega
          refine ih (a + 1) i2 df (by omega) (by rw [harg]; exact hhit) ?_
          intro j hj
          have harg2 : a + 1 + j = a + (j + 1) := by omega
          rw [harg2]
          exact hmiss (j + 1) (by omega)
        | some df2 =>
          exact absurd ⟨df2, ho⟩ hnot

theorem retryTrace_exhausted (oracle : ℕ → FetchOutcome) :
    ∀ (fuel a : ℕ), (∀ i, i < fuel → ¬ isHit (oracle (a + i))) →
      (retryTrace oracle a fuel).2 = none := by
  intro fuel
  induction fuel with
  | zero => intro a hmiss; rfl
  | succ n ih =>
    intro a hmiss
    rw [retryTrace]
    rcases ho : oracle a with e | odf
    · simp only [ho]
      refine ih (a + 1) ?_
      intro i hi
      have harg : a + 1 + i = a + (i + 1) := by omega
      rw [harg]
      exact hmiss (i + 1) (by omega)
    · cases odf with
      | none =>
        simp only [ho]
        refine ih (a + 1) ?_
        intro i hi
        have harg : a + 1 + i = a + (i + 1) := by omega
        rw [harg]
        exact hmiss (i + 1) (by omega)
      | some df =>
        have := hmiss 0 (Nat.succ_pos n)
        simp only [Nat.add_zero] at this
        exact absurd ⟨df, ho⟩ this

/-! Claim theorems. -/

/-- C1: in each buy-loop iteration a market buy is dispatched only when the
balance read before the buy decision is at least the fixed 5500 notional;
below 5500 no buy is submitted in that iteration.  This holds for the
`check_and_buy` iteration (which then waits on the sell signal) and for the
`trading_strategy` buy phase (whose per-candidate balance re-reads guard
each individual submission, and whose entry check aborts the iteration). -/
theorem buy_requires_min_balance :
    (∀ (balance : ℚ) (tickers valid : List Ticker) (data : Ticker → TickerData)
        (r : ℕ) (t : Ticker) (amt : ℚ),
      checkAndBuyIter balance tickers valid data r = BuyAction.buy t amt →
        5500 ≤ balance ∧ amt = 5500)
    ∧ (∀ (balance : ℚ) (tickers valid : List Ticker) (data : Ticker → TickerData)
        (r : ℕ), balance < 5500 →
        checkAndBuyIter balance tickers valid data r = BuyAction.waitSignal)
    ∧ (∀ (ownedAt : ℕ → Finset Ticker) (balanceAt : ℕ → ℚ)
        (candidates : List Ticker) (i : ℕ) (p : Ticker × ℚ),
        p ∈ buyPhase ownedAt balanceAt candidates i → 5500 ≤ p.2)
    ∧ (∀ (entryBalance : ℚ) (candidates : List Ticker)
        (ownedAt : ℕ → Finset Ticker) (balanceAt : ℚ → ℕ → ℚ),
        entryBalance < 5500 →
        tradingStrategyBuys entryBalance candidates ownedAt balanceAt = []) := by
  refine ⟨?_, ?_, ?_, ?_⟩
  · intro balance tickers valid data r t amt hbuy
    rw [checkAndBuyIter] at hbuy
    by_cases h : balance < 5500
    · rw [if_pos h] at hbuy
      exact absurd hbuy (by simp)
    · rw [if_neg h] at hbuy
      refine ⟨le_of_not_lt h, ?_⟩
      cases hsel : selectTicker (finalCandidates tickers valid data) r with
      | none => rw [hsel] at hbuy; simp at hbuy
      | some u =>
        rw [hsel] at hbuy
        injection hbuy with h1 h2
        exact h2.symm
  · intro balance tickers valid data r h
    rw [checkAndBuyIter, if_pos h]
  · intro ownedAt balanceAt candidates
    induction candidates with
    | nil => intro i p hp; simp [buyPhase] at hp
    | cons t rest ih =>
      intro i p hp
      rw [buyPhase] at hp
      by_cases h1 : 13 ≤ (ownedAt i).card
      · rw [if_pos h1] at hp; simp at hp
      · rw [if_neg h1] at hp
        by_cases h2 : t ∈ ownedAt i
        · rw [if_pos h2] at hp; exact ih (i + 1) p hp
        · rw [if_neg h2] at hp
          by_cases h3 : balanceAt i < 5500
          · rw [if_pos h3] at hp; simp at hp
          · rw [if_neg h3] at hp
            rcases List.mem_cons.mp hp with hEq | hMem
            · rw [hEq]; exact le_of_not_lt h3
            · exact ih (i + 1) p hMem
  · intro entryBalance candidates ownedAt balanceAt h
    rw [tradingStrategyBuys, if_pos h]

/-- C1 witness: at a balance of 5000 the `check_and_buy` iteration waits on
the sell signal instead of buying. -/
theorem buy_requires_min_balance_witness :
    checkAndBuyIter 5000 [0] [0] (fun _ => TickerData.mk none none none none) 0
      = BuyAction.waitSignal :=
  buy_requires_min_balance.2.1 5000 [0] [0]
    (fun _ => TickerData.mk none none none none) 0 (by norm_num)

/-- C3: the resilient fetch performs at most 5 underlying attempts, never
re-attempts without a one-second sleep in between, returns the first
attempt that produced a frame, returns `none` when all 5 attempts fail, and
— being a total function into `Option` over an arbitrary oracle, including
always-throwing ones — never propagates an exception to its caller. -/
theorem retry_fetch_contract :
    ∀ oracle : ℕ → FetchOutcome,
      countCalls (retryTrace oracle 0 MAX_RETRIES).1 ≤ 5
      ∧ noAdjacentCalls (retryTrace oracle 0 MAX_RETRIES).1 = true
      ∧ (∀ (i : ℕ) (df : List Candle), i < 5 → oracle i = Except.ok (some df) →
          (∀ j, j < i → ¬ isHit (oracle j)) →
          get_ohlcv_with_retry oracle = some df)
      ∧ ((∀ i, i < 5 → ¬ isHit (oracle i)) → get_ohlcv_with_retry oracle = none) := by
  intro oracle
  refine ⟨retryTrace_calls_le oracle 5 0, retryTrace_no_adjacent oracle 5 0, ?_, ?_⟩
  · intro i df hi hhit hmiss
    exact retryTrace_first_hit oracle 5 0 i df hi (by simpa using hhit)
      (fun j hj => by simpa using hmiss j hj)
  · intro hmiss
    exact retryTrace_exhausted oracle 5 0 (fun i hi => by simpa using hmiss i hi)

/-- C3 witness: an oracle that throws on the first two attempts and
succeeds on the third makes the retry wrapper return that frame. -/
theorem retry_fetch_contract_witness :
    get_ohlcv_with_retry
      (fun i => if i = 2 then Except.ok (some []) else Except.error ()) = some [] := by
  refine (retry_fetch_contract
    (fun i => if i = 2 then Except.ok (some []) else Except.error ())).2.2.1 2 []
    (by norm_num) (by norm_num) ?_
  intro j hj hhit
  rcases hhit with ⟨df, hdf⟩
  have hne : j ≠ 2 := by omega
  rw [if_neg hne] at hdf
  exact absurd hdf (by simp)

/-- C2: a ticker surviving the volume top-35 and the two momentum stages is
excluded from the final candidates whenever its finest-interval relative
close change is at most -0.001; any selected ticker is a downside-guard
survivor lying in the valid universe; and the random selection can return
every final candidate, not only the highest-ranked one. -/
theorem cascade_guard_and_selection :
    (∀ (tickers valid : List Ticker) (data : Ticker → TickerData)
        (t : Ticker) (p c : ℚ),
      t ∈ stage123 tickers data →
      (data t).s1 = some (p, c) →
      (c - p) / p ≤ -1 / 1000 →
      t ∉ finalCandidates tickers valid data)
    ∧ (∀ (tickers valid : List Ticker) (data : Ticker → TickerData)
        (r : ℕ) (t : Ticker),
        selectTicker (finalCandidates tickers valid data) r = some t →
        t ∈ downGuard data (stage123 tickers data) ∧ t ∈ valid)
    ∧ (∀ (tickers valid : List Ticker) (data : Ticker → TickerData) (t : Ticker),
        t ∈ finalCandidates tickers valid data →
        ∃ r, selectTicker (finalCandidates tickers valid data) r = some t) := by
  refine ⟨?_, ?_, ?_⟩
  · intro tickers valid data t p c h123 hs1 hdrop hmem
    have hdg : t ∈ downGuard data (stage123 tickers data) :=
      (List.mem_filter.mp hmem).1
    have hpred := (List.mem_filter.mp hdg).2
    simp only [hs1] at hpred
    by_cases hp : p = 0
    · rw [hp] at hdrop
      simp only [div_zero] at hdrop
      norm_num at hdrop
    · simp only [relChange, if_neg hp] at hpred
      have hgt : (-3 / 4000 : ℚ) < (c - p) / p := of_decide_eq_true hpred
      linarith
  · intro tickers valid data r t hsel
    rw [selectTicker] at hsel
    have hmem : t ∈ finalCandidates tickers valid data := List.get?_mem hsel
    exact ⟨(List.mem_filter.mp hmem).1,
      of_decide_eq_true (List.mem_filter.mp hmem).2⟩
  · intro tickers valid data t hmem
    obtain ⟨i, hi⟩ := List.get?_of_mem hmem
    have hlt : i < (finalCandidates tickers valid data).length := by
      rcases List.get?_eq_some.mp hi with ⟨h, _⟩
      exact h
    exact ⟨i, by rw [selectTicker, Nat.mod_eq_of_lt hlt]; exact hi⟩

/-- C2 witness: a concrete ticker that passes stages 1 to 3 but whose
1-second close change is exactly -0.001 is excluded from the final set. -/
theorem cascade_guard_and_selection_witness :
    (0 : Ticker) ∉ finalCandidates [0] [0]
      (fun t => if t = 0 then
          TickerData.mk (some 50) (some (100, 102)) (some (100, 101)) (some (1000, 999))
        else TickerData.mk none none none none) :=
  cascade_guard_and_selection.1 [0] [0]
    (fun t => if t = 0 then
        TickerData.mk (some 50) (some (100, 102)) (some (100, 101)) (some (1000, 999))
      else TickerData.mk none none none none)
    0 1000 999
    (by norm_num [stage123, riseFilter, volumeTop35, sortVolDesc, insertVolDesc,
      relChange])
    (by norm_num) (by norm_num)

/-- C4 counterexample: nominating the same asset twice in immediate
succession while the first order is in flight (submitted, but not yet
reflected in the owned snapshot) yields two submissions, not exactly one —
the pre-submission recheck only filters against the owned snapshot. -/
theorem inflight_duplicate_submission_cex :
    (nominateBuy (nominateBuy (DispatchState.mk [] []) 0) 0).submitted = [0, 0]
    ∧ (nominateBuy (nominateBuy (DispatchState.mk [] []) 0) 0).submitted.count 0 ≠ 1 := by
  refine ⟨by norm_num [nominateBuy], ?_⟩
  have h : (nominateBuy (nominateBuy (DispatchState.mk [] []) 0) 0).submitted = [0, 0] := by
    norm_num [nominateBuy]
  rw [h]
  decide

/-- C4 amended: the dedup the code actually provides — an asset already in
the owned snapshot is never submitted again; an asset absent from the
snapshot (even with an order in flight) is always submitted; and once the
first order is reflected in the snapshot, renomination adds no second
submission. -/
theorem owned_recheck_dedup :
    ∀ (st : DispatchState) (t : Ticker),
      (t ∈ st.owned → nominateBuy st t = st)
      ∧ (t ∉ st.owned → (nominateBuy st t).submitted = st.submitted ++ [t])
      ∧ (t ∉ st.owned →
          (nominateBuy (DispatchState.mk ((nominateBuy st t).owned ++ [t])
              ((nominateBuy st t).submitted)) t).submitted.count t
            = st.submitted.count t + 1) := by
  intro st t
  refine ⟨fun h => by simp [nominateBuy, h], fun h => by simp [nominateBuy, h],
    fun h => ?_⟩
  simp [nominateBuy, h, List.count_append]

/-- C4 witness: a fresh nomination of an unowned asset is submitted once. -/
theorem owned_recheck_dedup_witness :
    (nominateBuy (DispatchState.mk [] []) 3).submitted = [3] := by
  simpa using (owned_recheck_dedup (DispatchState.mk [] []) 3).2.1 (by decide)

/-- C8 counterexample: at cost basis 100, bull trend and current price
100.6 the sell rules of `trading_strategy` produce no sell (the bull profit
threshold is 102), and `check_and_sell_increase` places no order (its
threshold is 101.75) — not the profit outcome the claim states. -/
theorem bull_sell_at_100_6_cex :
    tradeSellOutcome Trend.bull 100 (503 / 5) ≠ SellOutcome.profit
    ∧ tradeSellOutcome Trend.bull 100 (503 / 5) = SellOutcome.none
    ∧ checkSellIncreaseOrder 1 100 true (some (503 / 5)) = none := by
  have h : tradeSellOutcome Trend.bull 100 (503 / 5) = SellOutcome.none := by
    norm_num [tradeSellOutcome]
  exact ⟨by rw [h]; decide, h, by norm_num [checkSellIncreaseOrder]⟩

/-- C8 amended: at cost basis 100, bull trend and price 100.6 the outcome
is no-sell; the bull profit branch needs a price of at least 102 (a plain
2% band with no fee adjustment), and the limit-sell path needs at least
101.75, then placing its order at 101.5. -/
theorem bull_sell_thresholds :
    tradeSellOutcome Trend.bull 100 (503 / 5) = SellOutcome.none
    ∧ checkSellIncreaseOrder 1 100 true (some (503 / 5)) = none
    ∧ (∀ p : ℚ, 102 ≤ p → tradeSellOutcome Trend.bull 100 p = SellOutcome.profit)
    ∧ checkSellIncreaseOrder 1 100 true (some (407 / 4)) = some (203 / 2) := by
  refine ⟨by norm_num [tradeSellOutcome], by norm_num [checkSellIncreaseOrder], ?_,
    by norm_num [checkSellIncreaseOrder, round2]⟩
  intro p hp
  have h : (100 : ℚ) * (51 / 50) ≤ p := by linarith
  rw [tradeSellOutcome]
  rw [if_pos h]

/-- C8 witness: at price 102 the bull profit branch fires. -/
theorem bull_sell_thresholds_witness :
    tradeSellOutcome Trend.bull 100 102 = SellOutcome.profit :=
  bull_sell_thresholds.2.2.1 102 (by norm_num)

/-- C5 counterexample: on twenty closes of 100 followed by 110 with windows
5/20, the previous-step SMAs are equal (100 each) and the current short SMA
(102) strictly exceeds the current long SMA (100.5), so the claimed
less-or-equal crossover condition holds — yet `is_golden_cross` returns
false, because the code requires a strictly smaller previous short SMA. -/
theorem golden_cross_equal_prev_cex :
    is_golden_cross ((List.replicate 20 (100 : ℚ) ++ [110]).map F.val) 5 20
      = Except.ok false
    ∧ smaQ 5 (List.replicate 20 (100 : ℚ) ++ [110]) 19
        ≤ smaQ 20 (List.replicate 20 (100 : ℚ) ++ [110]) 19
    ∧ smaQ 20 (List.replicate 20 (100 : ℚ) ++ [110]) 20
        < smaQ 5 (List.replicate 20 (100 : ℚ) ++ [110]) 20 := by
  have hlen : (List.replicate 20 (100 : ℚ) ++ [110]).length = 21 := by simp
  have hA : smaQ 5 (List.replicate 20 (100 : ℚ) ++ [110]) 19 = 100 := by
    simp only [smaQ]
    norm_num [List.drop_append_of_le_length, List.drop_replicate,
      List.take_append_of_le_length, List.take_replicate, List.sum_replicate]
  have hB : smaQ 20 (List.replicate 20 (100 : ℚ) ++ [110]) 19 = 100 := by
    simp only [smaQ]
    norm_num [List.drop_append_of_le_length, List.drop_replicate,
      List.take_append_of_le_length, List.take_replicate, List.sum_replicate]
  have hC : smaQ 5 (List.replicate 20 (100 : ℚ) ++ [110]) 20 = 102 := by
    simp only [smaQ]
    norm_num [List.drop_append_of_le_length, List.drop_replicate,
      List.take_append_of_le_length, List.take_replicate, List.sum_replicate]
  have hD : smaQ 20 (List.replicate 20 (100 : ℚ) ++ [110]) 20 = 201 / 2 := by
    simp only [smaQ]
    norm_num [List.drop_append_of_le_length, List.drop_replicate,
      List.take_append_of_le_length, List.take_replicate, List.sum_replicate]
  refine ⟨?_, ?_, ?_⟩
  · rw [is_golden_cross_eval _ 5 20 (by norm_num) (by norm_num) (by rw [hlen])]
    rw [hlen]
    norm_num [hA, hB, hC, hD]
  · rw [hA, hB]
  · rw [hD, hC]
    norm_num

/-- C5 amended: on a close series with at least `long_period + 1` closes
(windows at least 1, short at most long), the golden-cross predicate is
true iff the short SMA was strictly below the long SMA one step ago and is
strictly above it at the latest step — strict on both sides, not the
claimed less-or-equal at the previous step. -/
theorem golden_cross_strict_iff :
    ∀ (closes : List ℚ) (s l : ℕ), 1 ≤ s → s ≤ l → l + 1 ≤ closes.length →
      (is_golden_cross (closes.map F.val) s l = Except.ok true ↔
        smaQ s closes (closes.length - 2) < smaQ l closes (closes.length - 2)
          ∧ smaQ l closes (closes.length - 1) < smaQ s closes (closes.length - 1)) := by
  intro closes s l hs hsl hlen
  rw [is_golden_cross_eval closes s l hs hsl hlen]
  simp [Bool.and_eq_true, decide_eq_true_eq]

/-- C5 witness: a strict 1/2-window crossover on closes 2, 1, 3 is
detected. -/
theorem golden_cross_strict_iff_witness :
    is_golden_cross ([(2 : ℚ), 1, 3].map F.val) 1 2 = Except.ok true :=
  (golden_cross_strict_iff [2, 1, 3] 1 2 (by norm_num) (by norm_num)
    (by norm_num)).mpr (by norm_num [smaQ])

/-- C6 counterexample: on the empty candle sequence the RSI and stochastic
computations raise `IndexError` at their trailing `iloc[-1]`, and
`is_golden_cross` raises at `iloc[-2]` already on a one-element sequence —
the indicators do throw instead of returning an undefined value. -/
theorem indicator_empty_raises_cex :
    calculate_rsi ([] : List F) 14 = Except.error ()
    ∧ calculate_stochastic ([] : List Candle) 14 3 = Except.error ()
    ∧ is_golden_cross [F.val 100] 5 20 = Except.error () :=
  ⟨rfl, rfl, rfl⟩

/-- C6 amended: on nonempty sequences shorter than the window, RSI returns
NaN and the stochastic returns a NaN pair without throwing, and the golden
cross on sequences of length at least two below the long window returns
false; but on the empty sequence RSI and stochastic raise `IndexError`, as
does the golden cross on sequences shorter than two. -/
theorem indicator_short_window_behavior :
    ∀ (closes : List ℚ) (candles : List Candle) (s l period kp dp : ℕ),
      (1 ≤ closes.length → closes.length < period →
        calculate_rsi (closes.map F.val) period = Except.ok F.nan)
      ∧ (2 ≤ closes.length → closes.length < l →
        is_golden_cross (closes.map F.val) s l = Except.ok false)
      ∧ (1 ≤ candles.length → candles.length < kp →
        calculate_stochastic candles kp dp = Except.ok (F.nan, F.nan))
      ∧ calculate_rsi ([] : List F) period = Except.error ()
      ∧ calculate_stochastic ([] : List Candle) kp dp = Except.error ()
      ∧ (closes.length < 2 →
        is_golden_cross (closes.map F.val) s l = Except.error ()) := by
  intro closes candles s l period kp dp
  have hn : (closes.map F.val).length = closes.length := List.length_map _ _
  refine ⟨?_, ?_, ?_, rfl, rfl, ?_⟩
  · intro h1 h2
    have hg : ilocNeg (rsiGain (closes.map F.val) period) 1 = some F.nan := by
      rw [ilocNeg_eq_get? _ 1 le_rfl (by rw [length_rsiGain, hn]; omega),
        length_rsiGain, hn, rsiGain,
        get?_rollingMeanF _ _ _ (by rw [List.length_map, length_diffF, hn]; omega),
        smaWindow_nan_of_short _ _ _ (by omega)]
    have hl : ilocNeg (rsiLoss (closes.map F.val) period) 1 = some F.nan := by
      rw [ilocNeg_eq_get? _ 1 le_rfl (by rw [length_rsiLoss, hn]; omega),
        length_rsiLoss, hn, rsiLoss,
        get?_rollingMeanF _ _ _ (by rw [List.length_map, length_diffF, hn]; omega),
        smaWindow_nan_of_short _ _ _ (by omega)]
    rw [calculate_rsi_last _ _ _ _ hg hl, fdiv_nan_left, rsiFormula_nan]
  · intro h2 hl
    have hs2 : ilocNeg (rollingMeanF s (closes.map F.val)) 2
        = some (smaWindow s (closes.map F.val) ((closes.map F.val).length - 2)) :=
      ilocNeg_rollingMeanF s _ 2 (by omega) (by omega)
    have hs1 : ilocNeg (rollingMeanF s (closes.map F.val)) 1
        = some (smaWindow s (closes.map F.val) ((closes.map F.val).length - 1)) :=
      ilocNeg_rollingMeanF s _ 1 (by omega) (by omega)
    have hl2 : ilocNeg (rollingMeanF l (closes.map F.val)) 2 = some F.nan := by
      rw [ilocNeg_rollingMeanF l _ 2 (by omega) (by omega),
        smaWindow_nan_of_short _ _ _ (by omega)]
    have hl1 : ilocNeg (rollingMeanF l (closes.map F.val)) 1 = some F.nan := by
      rw [ilocNeg_rollingMeanF l _ 1 (by omega) (by omega),
        smaWindow_nan_of_short _ _ _ (by omega)]
    rw [is_golden_cross, hs2, hl2, hs1, hl1]
    simp [fltB_nan_right]
  · intro h1 h2
    rcases hcand : candles.get? (candles.length - 1) with _ | cand
    · rw [List.get?_eq_none] at hcand
      omega
    have hlow : (stochLowMin candles kp).get? (candles.length - 1) = some F.nan := by
      rw [stochLowMin,
        get?_rollingMinF _ _ _ (by rw [List.length_map]; omega),
        rminWindow_nan_of_short _ _ _ (by omega)]
    have hhigh : (stochHighMax candles kp).get? (candles.length - 1) = some F.nan := by
      rw [stochHighMax,
        get?_rollingMaxF _ _ _ (by rw [List.length_map]; omega),
        rmaxWindow_nan_of_short _ _ _ (by omega)]
    have hk : (stochK candles kp).get? (candles.length - 1) = some F.nan := by
      rw [stochK]
      have hinner := get?_zipWith (fun lo hi => (lo, hi)) _ _
        (candles.length - 1) _ _ hlow hhigh
      have hcl : (candles.map (fun c => F.val c.close)).get? (candles.length - 1)
          = some (F.val cand.close) := by
        rw [List.get?_map, hcand]
        rfl
      rw [get?_zipWith _ _ _ _ _ _ hcl hinner]
      rw [fsub_nan_right, fsub_nan_right, fdiv_nan_left, fmul_val100_nan]
    have hkiloc : ilocNeg (stochK candles kp) 1 = some F.nan := by
      rw [ilocNeg_eq_get? _ 1 le_rfl (by rw [length_stochK]; omega), length_stochK]
      exact hk
    have hd : ilocNeg (stochD candles kp dp) 1 = some F.nan := by
      rw [stochD, ilocNeg_rollingMeanF dp _ 1 le_rfl (by rw [length_stochK]; omega),
        length_stochK]
      by_cases hdp : dp = 0 ∨ candles.length - 1 + 1 < dp
      · rw [smaWindow, if_pos hdp]
      · rw [smaWindow, if_neg hdp]
        push_neg at hdp
        rw [meanF_nan_of_mem]
        exact mem_windowAt_last dp _ _ F.nan (by omega) (by omega) hk
    rw [calculate_stochastic, hkiloc, hd]
  · intro h2
    have hs2 : ilocNeg (rollingMeanF s (closes.map F.val)) 2 = none := by
      rw [ilocNeg, if_neg]
      rw [length_rollingMeanF, hn]
      omega
    rw [is_golden_cross, hs2]

/-- C6 witness: a two-close sequence gives NaN RSI and a false golden cross
below the 20-window, and a single candle gives a NaN stochastic pair. -/
theorem indicator_short_window_behavior_witness :
    calculate_rsi ([(100 : ℚ), 101].map F.val) 14 = Except.ok F.nan
    ∧ is_golden_cross ([(100 : ℚ), 101].map F.val) 5 20 = Except.ok false
    ∧ calculate_stochastic [Candle.mk 100 101 99 100 5] 14 3
        = Except.ok (F.nan, F.nan) :=
  ⟨(indicator_short_window_behavior [100, 101] [Candle.mk 100 101 99 100 5]
      5 20 14 14 3).1 (by norm_num) (by norm_num),
   (indicator_short_window_behavior [100, 101] [Candle.mk 100 101 99 100 5]
      5 20 14 14 3).2.1 (by norm_num) (by norm_num),
   (indicator_short_window_behavior [100, 101] [Candle.mk 100 101 99 100 5]
      5 20 14 14 3).2.2.1 (by norm_num) (by norm_num)⟩

/-- C7 counterexample: on fifteen flat closes of 100 with period 14 the
average loss over the RSI window is zero, yet the RSI is NaN (the gain is
also zero, so `rs = 0/0`), not a defined saturated value; and on fourteen
flat candles the rolling low equals the rolling high (both 100) yet %K is
NaN (`0/0` scaled by 100), not a defined value — the NaN is propagated,
contradicting the claim in both parts. -/
theorem flat_rsi_stochastic_nan_cex :
    ilocNeg (rsiLoss ((List.replicate 15 (100 : ℚ)).map F.val) 14) 1
      = some (F.val 0)
    ∧ calculate_rsi ((List.replicate 15 (100 : ℚ)).map F.val) 14 = Except.ok F.nan
    ∧ ilocNeg (stochLowMin (List.replicate 14 (Candle.mk 100 100 100 100 0)) 14) 1
        = some (F.val 100)
    ∧ ilocNeg (stochHighMax (List.replicate 14 (Candle.mk 100 100 100 100 0)) 14) 1
        = some (F.val 100)
    ∧ ilocNeg (stochK (List.replicate 14 (Candle.mk 100 100 100 100 0)) 14) 1
        = some F.nan := by
  have hmap : (List.replicate 15 (100 : ℚ)).map F.val
      = List.replicate (14 + 1) (F.val 100) := by
    rw [List.map_replicate]
  have hloss : ilocNeg (rsiLoss ((List.replicate 15 (100 : ℚ)).map F.val) 14) 1
      = some (F.val 0) := by
    rw [hmap]
    exact rsiLoss_flat_last 14 14 100 (by norm_num) (by norm_num)
  have hgain : ilocNeg (rsiGain ((List.replicate 15 (100 : ℚ)).map F.val) 14) 1
      = some (F.val 0) := by
    rw [hmap]
    exact rsiGain_flat_last 14 14 100 (by norm_num) (by norm_num)
  have hrsi : calculate_rsi ((List.replicate 15 (100 : ℚ)).map F.val) 14
      = Except.ok F.nan := by
    rw [calculate_rsi_last _ _ _ _ hgain hloss, fdiv_val_zero_zero, rsiFormula_nan]
  have hz : fsub (F.val (100 : ℚ)) (F.val 100) = F.val 0 := by
    rw [fsub_val]
    norm_num
  have hk : ilocNeg (stochK (List.replicate 14 (Candle.mk 100 100 100 100 0)) 14) 1
      = some F.nan := by
    rw [stochK_last_eval _ 14 (F.val 100) (F.val 100) (Candle.mk 100 100 100 100 0)
      (by rw [List.length_replicate]; omega) get?_flat14_last
      stochLowMin_flat14 stochHighMax_flat14]
    show some (fmul (F.val 100) (fdiv (fsub (F.val 100) (F.val 100))
      (fsub (F.val 100) (F.val 100)))) = some F.nan
    rw [hz, fdiv_val_zero_zero, fmul_val100_nan]
  exact ⟨hloss, hrsi, stochLowMin_flat14, stochHighMax_flat14, hk⟩

/-- C7 amended: when the last average loss is zero the RSI is 100 (a
saturated defined value) only if the last average gain is positive; when
the gain is also zero (a fully flat window) the RSI is NaN.  In the
stochastic, a flat range (rolling low equal to rolling high, the last close
sitting at that level) makes %K NaN — the division by zero is propagated
as NaN, not replaced by a defined value. -/
theorem rsi_saturation_and_flat_range :
    ∀ (closes : List F) (period : ℕ) (g : ℚ) (candles : List Candle) (kp : ℕ)
      (m : ℚ) (cand : Candle),
      (ilocNeg (rsiGain closes period) 1 = some (F.val g) →
        ilocNeg (rsiLoss closes period) 1 = some (F.val 0) →
        ((0 < g → calculate_rsi closes period = Except.ok (F.val 100))
          ∧ (g = 0 → calculate_rsi closes period = Except.ok F.nan)))
      ∧ (1 ≤ candles.length →
        candles.get? (candles.length - 1) = some cand →
        cand.close = m →
        ilocNeg (stochLowMin candles kp) 1 = some (F.val m) →
        ilocNeg (stochHighMax candles kp) 1 = some (F.val m) →
        ilocNeg (stochK candles kp) 1 = some F.nan) := by
  intro closes period g candles kp m cand
  constructor
  · intro hg hl
    constructor
    · intro hpos
      rw [calculate_rsi_last _ _ _ _ hg hl, fdiv_val_pos_zero g hpos,
        fadd_val_one_inf, fdiv_val100_inf, fsub_val]
      norm_num
    · intro hzero
      subst hzero
      rw [calculate_rsi_last _ _ _ _ hg hl, fdiv_val_zero_zero, rsiFormula_nan]
  · intro h1 hcand hclose hlow hhigh
    rw [stochK_last_eval candles kp (F.val m) (F.val m) cand h1 hcand hlow hhigh,
      hclose]
    have hz : fsub (F.val m) (F.val m) = F.val 0 := by
      rw [fsub_val]
      norm_num
    rw [hz, fdiv_val_zero_zero, fmul_val100_nan]

/-- C7 witness: two closes 100 then 110 with period 1 give positive average
gain and zero average loss, and the RSI saturates to 100; and fourteen flat
candles instantiate the flat-range hypotheses, yielding a NaN %K. -/
theorem rsi_saturation_and_flat_range_witness :
    calculate_rsi [F.val 100, F.val 110] 1 = Except.ok (F.val 100)
    ∧ ilocNeg (stochK (List.replicate 14 (Candle.mk 100 100 100 100 0)) 14) 1
        = some F.nan := by
  have hdiff : diffF [F.val 100, F.val 110] = [F.nan, F.val 10] := by
    show [F.nan, fsub (F.val 110) (F.val 100)] = [F.nan, F.val 10]
    rw [fsub_val]
    norm_num
  have hgains : (diffF [F.val 100, F.val 110]).map
      (fun d => if fgtB d (F.val 0) then d else F.val 0) = [F.val 0, F.val 10] := by
    rw [hdiff]
    rfl
  have hlosses : (diffF [F.val 100, F.val 110]).map
      (fun d => if fltB d (F.val 0) then fneg d else F.val 0)
      = [F.val 0, F.val 0] := by
    rw [hdiff]
    rfl
  have hgain : ilocNeg (rsiGain [F.val 100, F.val 110] 1) 1 = some (F.val 10) := by
    rw [rsiGain, hgains]
    show some (smaWindow 1 [F.val 0, F.val 10] 1) = some (F.val 10)
    rw [smaWindow, if_neg (by norm_num)]
    show some (meanF [F.val 10]) = some (F.val 10)
    rw [meanF_singleton]
  have hloss : ilocNeg (rsiLoss [F.val 100, F.val 110] 1) 1 = some (F.val 0) := by
    rw [rsiLoss, hlosses]
    show some (smaWindow 1 [F.val 0, F.val 0] 1) = some (F.val 0)
    rw [smaWindow, if_neg (by norm_num)]
    show some (meanF [F.val 0]) = some (F.val 0)
    rw [meanF_singleton]
  refine ⟨((rsi_saturation_and_flat_range [F.val 100, F.val 110] 1 10
      (List.replicate 14 (Candle.mk 100 100 100 100 0)) 14 100
      (Candle.mk 100 100 100 100 0)).1 hgain hloss).1 (by norm_num), ?_⟩
  exact (rsi_saturation_and_flat_range [F.val 100, F.val 110] 1 10
      (List.replicate 14 (Candle.mk 100 100 100 100 0)) 14 100
      (Candle.mk 100 100 100 100 0)).2
    (by rw [List.length_replicate]; omega) get?_flat14_last rfl
    stochLowMin_flat14 stochHighMax_flat14

/-- C10: a nonempty candle sequence with fewer than 26 closes makes the
26-candle rolling mean NaN at the last index; both strict moving-average
comparisons are then false, so `determine_market_trend` classifies the
asset as sideways, never as bull or bear. -/
theorem short_history_sideways :
    ∀ candles : List Candle, 0 < candles.length → candles.length < 26 →
      determine_market_trend (some candles) = Trend.sideways := by
  intro candles hpos hlt
  have hne : candles.isEmpty = false := by
    cases candles with
    | nil => simp at hpos
    | cons a rest => rfl
  have hlen : (candles.map (fun c => F.val c.close)).length = candles.length :=
    List.length_map _ _
  have h12 : ilocNeg (rollingMeanF 12 (candles.map (fun c => F.val c.close))) 1
      = some (smaWindow 12 (candles.map (fun c => F.val c.close))
          ((candles.map (fun c => F.val c.close)).length - 1)) :=
    ilocNeg_rollingMeanF 12 _ 1 le_rfl (by omega)
  have h26 : ilocNeg (rollingMeanF 26 (candles.map (fun c => F.val c.close))) 1
      = some (smaWindow 26 (candles.map (fun c => F.val c.close))
          ((candles.map (fun c => F.val c.close)).length - 1)) :=
    ilocNeg_rollingMeanF 26 _ 1 le_rfl (by omega)
  have h26nan : smaWindow 26 (candles.map (fun c => F.val c.close))
      ((candles.map (fun c => F.val c.close)).length - 1) = F.nan :=
    smaWindow_nan_of_short 26 _ _ (by omega)
  rw [determine_market_trend]
  simp only [hne, Bool.false_eq_true, if_false, h12, h26, h26nan]
  simp [fgtB, fltB_nan_left, fltB_nan_right]

/-- C10 witness: a single-candle history is classified sideways. -/
theorem short_history_sideways_witness :
    determine_market_trend (some [Candle.mk 100 101 99 100 5]) = Trend.sideways :=
  short_history_sideways [Candle.mk 100 101 99 100 5] (by norm_num) (by norm_num)

/-- C9 counterexample: the `trading_strategy` loop, observing a balance of
5000 (below the 5500 minimum), sleeps one second and re-polls — it never
waits on the capital hand-off signal. -/
theorem strategy_low_balance_polls_cex :
    tradingStrategyLowBalActs 5000 = [LoopAct.readBalance 5000, LoopAct.sleepSec 1]
    ∧ LoopAct.waitSignal ∉ tradingStrategyLowBalActs 5000 := by
  have h : tradingStrategyLowBalActs 5000
      = [LoopAct.readBalance 5000, LoopAct.sleepSec 1] := by
    rw [tradingStrategyLowBalActs, if_pos (by norm_num : (5000 : ℚ) < 5500)]
  exact ⟨h, by rw [h]; simp⟩

/-- C9 amended: in `CryptocurrencyTradingBot`, the buy loop on a low
balance waits on `sell_executed`, clears it, and re-reads the balance at
the top of the next iteration; both sell loops set the signal exactly when
they submit a sell.  In `market_trend_trader`, the strategy loop instead
sleeps one second and re-polls, using no signal. -/
theorem capital_handoff_behavior :
    ∀ (b b2 amt avg : ℚ) (valid : Bool) (price : Option ℚ),
      (b < 5500 →
        checkAndBuyActs b
          = [LoopAct.readBalance b, LoopAct.waitSignal, LoopAct.clearSignal]
        ∧ (checkAndBuyActs b ++ checkAndBuyActs b2).take 4
          = [LoopAct.readBalance b, LoopAct.waitSignal, LoopAct.clearSignal,
             LoopAct.readBalance b2])
      ∧ (LoopAct.submitSell ∈ sellDecreaseActs amt avg valid price →
          LoopAct.setSignal ∈ sellDecreaseActs amt avg valid price)
      ∧ (LoopAct.submitSell ∈ sellIncreaseActs amt avg valid price →
          LoopAct.setSignal ∈ sellIncreaseActs amt avg valid price)
      ∧ (b < 5500 →
          LoopAct.waitSignal ∉ tradingStrategyLowBalActs b
          ∧ LoopAct.sleepSec 1 ∈ tradingStrategyLowBalActs b) := by
  intro b b2 amt avg valid price
  refine ⟨?_, ?_, ?_, ?_⟩
  · intro h
    by_cases h2 : b2 < 5500 <;> simp [checkAndBuyActs, h, h2]
  · intro hmem
    have hcases : sellDecreaseActs amt avg valid price = []
        ∨ sellDecreaseActs amt avg valid price
          = [LoopAct.submitSell, LoopAct.setSignal] := by
      rw [sellDecreaseActs.eq_def]
      split_ifs
      · exact Or.inl rfl
      · exact Or.inl rfl
      · exact Or.inl rfl
      · cases price with
        | none => exact Or.inl rfl
        | some p =>
          by_cases hp : p ≤ avg * (389 / 400)
          · simp [hp]
          · simp [hp]
    rcases hcases with hc | hc
    · rw [hc] at hmem; simp at hmem
    · rw [hc]; simp
  · intro hmem
    rw [sellIncreaseActs.eq_def] at hmem ⊢
    rcases hco : checkSellIncreaseOrder amt avg valid price with _ | q
    · rw [hco] at hmem
      simp at hmem
    · simp
  · intro h
    exact ⟨by simp [tradingStrategyLowBalActs, h],
      by simp [tradingStrategyLowBalActs, h]⟩

/-- C9 witness: the blocking trace at balance 5000, and a concrete losing
position whose sell sets the signal. -/
theorem capital_handoff_behavior_witness :
    checkAndBuyActs 5000
      = [LoopAct.readBalance 5000, LoopAct.waitSignal, LoopAct.clearSignal]
    ∧ LoopAct.setSignal ∈ sellDecreaseActs 1 100 true (some 97) :=
  ⟨((capital_handoff_behavior 5000 6000 1 100 true (some 97)).1 (by norm_num)).1,
   (capital_handoff_behavior 5000 6000 1 100 true (some 97)).2.1
     (by norm_num [sellDecreaseActs])⟩

end TradingBot
